import Mathlib

/-!
Shallow embedding of `chain/src/types.rs` (grin block-chain base types):
the `Lineage` and `Tip` data types, their binary serialization, and the
`NoopAdapter` notification sink.  The serializer primitives (`ser::Writer`,
`ser::Reader`, `Hash`) live in the `core` crate, outside the sources at
hand, and are modelled from the spec: a writer appends fixed-width
big-endian unsigned integers and raw fixed-size byte strings to a byte
stream, and a reader consumes them, failing with a decode error on a
truncated stream.
-/

namespace GrinChain

/-- Modelled from the spec: the serializer's single decode-error kind.
Deserialization of a truncated or malformed stream fails with it. -/
inductive SerError where
  | decodeError
deriving DecidableEq

/-- Modelled from the spec: a fixed-width unsigned 32-bit integer is
written most-significant-byte-first as 4 bytes (`Writer::write_u32`).
Values are `Nat`s standing for `u32`; each byte extraction is taken
`% 256`, so a value is implicitly truncated to its low 32 bits exactly
as a Rust `as u32` cast would. -/
def u32ToBytes (n : Nat) : List Nat :=
  [n / 2 ^ 24 % 256, n / 2 ^ 16 % 256, n / 2 ^ 8 % 256, n % 256]

/-- Modelled from the spec: a fixed-width unsigned 64-bit integer is
written most-significant-byte-first as 8 bytes (`Writer::write_u64`). -/
def u64ToBytes (n : Nat) : List Nat :=
  [n / 2 ^ 56 % 256, n / 2 ^ 48 % 256, n / 2 ^ 40 % 256, n / 2 ^ 32 % 256,
   n / 2 ^ 24 % 256, n / 2 ^ 16 % 256, n / 2 ^ 8 % 256, n % 256]

/-- Modelled from the spec: big-endian reassembly of a byte string into
the unsigned integer it denotes. -/
def bytesToNat (l : List Nat) : Nat :=
  l.foldl (fun a b => a * 256 + b) 0

/-- Modelled from the spec: the reader consumes exactly `n` bytes from
the stream, failing with a decode error if fewer remain. -/
def readFixed (n : Nat) (s : List Nat) : Except SerError (List Nat × List Nat) :=
  if n ≤ s.length then .ok (s.take n, s.drop n) else .error .decodeError

/-- Modelled from the spec: `Reader::read_u32` consumes 4 bytes and
reassembles them most-significant-byte-first. -/
def read_u32 (s : List Nat) : Except SerError (Nat × List Nat) :=
  match readFixed 4 s with
  | .error e => .error e
  | .ok (b, rest) => .ok (bytesToNat b, rest)

/-- Modelled from the spec: `Reader::read_u64` consumes 8 bytes and
reassembles them most-significant-byte-first. -/
def read_u64 (s : List Nat) : Except SerError (Nat × List Nat) :=
  match readFixed 8 s with
  | .error e => .error e
  | .ok (b, rest) => .ok (bytesToNat b, rest)

/-- Modelled from the spec: the number of bytes of a block identifier,
an opaque fixed-size digest (`core::core::hash::Hash`, 32 bytes). -/
def hashSize : Nat := 32

/-- Modelled from the spec: a block identifier, an opaque fixed-size
digest carried as its raw bytes. -/
structure Hash where
  bytes : List Nat
deriving DecidableEq

/-- A well-formed digest holds exactly `hashSize` bytes, each a `u8`. -/
def Hash.wf (h : Hash) : Prop :=
  h.bytes.length = hashSize ∧ ∀ b ∈ h.bytes, b < 256

instance (h : Hash) : Decidable h.wf :=
  instDecidableAnd

/-- Modelled from the spec: `Writer::write_fixed_bytes` emits the raw
bytes of the digest. -/
def Hash.write (h : Hash) : List Nat :=
  h.bytes

/-- Modelled from the spec: `Hash::read` consumes exactly `hashSize`
bytes, failing with a decode error on a truncated stream. -/
def Hash.read (s : List Nat) : Except SerError (Hash × List Nat) :=
  match readFixed hashSize s with
  | .error e => .error e
  | .ok (b, rest) => .ok (⟨b⟩, rest)

/-- The lineage of a fork, a series of branch numbers
(`struct Lineage(Vec<u32>)` in `types.rs`).  Elements are `Nat`s
standing for `u32` values. -/
structure Lineage where
  branches : List Nat
deriving DecidableEq

/-- A well-formed lineage carries only `u32` values. -/
def Lineage.wf (l : Lineage) : Prop :=
  ∀ x ∈ l.branches, x < 2 ^ 32

instance (l : Lineage) : Decidable l.wf :=
  List.decidableBAll _ l.branches

/-- New lineage initialized just with branch 0 (`Lineage::new`). -/
def Lineage.new : Lineage :=
  ⟨[0]⟩

/-- The last branch that was added to the lineage
(`Lineage::last_branch`).  The source dereferences
`self.0.last().unwrap()`, which panics on an empty lineage; the panic is
modelled as `none`. -/
def Lineage.last_branch (l : Lineage) : Option Nat :=
  l.branches.getLast?

/-- Serialization of a lineage (`ser::Writeable for Lineage`): the
element count, cast to `u32` (`self.0.len() as u32`, truncation modulo
`2 ^ 32`), then each element in order. -/
def Lineage.write (l : Lineage) : List Nat :=
  u32ToBytes (l.branches.length % 2 ^ 32) ++ (l.branches.map u32ToBytes).flatten

/-- The element-reading loop of `Lineage::read`: `n` successive
`read_u32` calls; any failure propagates. -/
def readNU32 : Nat → List Nat → Except SerError (List Nat × List Nat)
  | 0, s => .ok ([], s)
  | Nat.succ n, s =>
    match read_u32 s with
    | .error e => .error e
    | .ok (x, s1) =>
      match readNU32 n s1 with
      | .error e => .error e
      | .ok (xs, s2) => .ok (x :: xs, s2)

/-- Deserialization of a lineage (`ser::Readable for Lineage`): read the
count, then that many `u32` elements. -/
def Lineage.read (s : List Nat) : Except SerError (Lineage × List Nat) :=
  match read_u32 s with
  | .error e => .error e
  | .ok (len, s1) =>
    match readNU32 len s1 with
    | .error e => .error e
    | .ok (branches, s2) => .ok (⟨branches⟩, s2)

/-- The tip of a fork (`struct Tip` in `types.rs`).  `height` is a `Nat`
standing for a `u64`. -/
structure Tip where
  height : Nat
  last_block_h : Hash
  prev_block_h : Hash
  lineage : Lineage
deriving DecidableEq

/-- A well-formed tip has a `u64` height, well-formed digests and a
well-formed lineage. -/
def Tip.wf (t : Tip) : Prop :=
  t.height < 2 ^ 64 ∧ t.last_block_h.wf ∧ t.prev_block_h.wf ∧ t.lineage.wf

instance (t : Tip) : Decidable t.wf :=
  instDecidableAnd

/-- Creates a new tip at height zero and the provided genesis hash
(`Tip::new`). -/
def Tip.new (gbh : Hash) : Tip :=
  { height := 0, last_block_h := gbh, prev_block_h := gbh, lineage := Lineage.new }

/-- Append a new block hash to this tip, returning a new updated tip
(`Tip::append`).  The source computes `self.height + 1` on a `u64`; the
unchecked addition is modelled modulo `2 ^ 64`. -/
def Tip.append (t : Tip) (bh : Hash) : Tip :=
  { height := (t.height + 1) % 2 ^ 64,
    last_block_h := bh,
    prev_block_h := t.last_block_h,
    lineage := t.lineage }

/-- Serialization of a tip (`ser::Writeable for Tip`): height as `u64`,
both digests as fixed bytes, then the lineage encoding. -/
def Tip.write (t : Tip) : List Nat :=
  u64ToBytes t.height ++ t.last_block_h.write ++ t.prev_block_h.write ++ t.lineage.write

/-- Deserialization of a tip (`ser::Readable for Tip`). -/
def Tip.read (s : List Nat) : Except SerError (Tip × List Nat) :=
  match read_u64 s with
  | .error e => .error e
  | .ok (height, s1) =>
    match Hash.read s1 with
    | .error e => .error e
    | .ok (last, s2) =>
      match Hash.read s2 with
      | .error e => .error e
      | .ok (prev, s3) =>
        match Lineage.read s3 with
        | .error e => .error e
        | .ok (line, s4) =>
          .ok ({ height := height, last_block_h := last,
                 prev_block_h := prev, lineage := line }, s4)

/-- Modelled from the spec: a validated block exposes its own identifier
and its parent's identifier; all other content is opaque here. -/
structure Block where
  id : Hash
  prev_id : Hash
deriving DecidableEq

/-- The no-op `ChainAdapter` (`struct NoopAdapter { }`). -/
structure NoopAdapter where

/-- `NoopAdapter::block_accepted` has an empty body and takes `&self`
and `&Block`; in a state-passing embedding over an arbitrary downstream
state type it returns the state unchanged and unit. -/
def NoopAdapter.block_accepted {σ : Type} (_ : NoopAdapter) (w : σ) (_ : Block) : σ × Unit :=
  (w, ())

/-- Iterated `Tip::append`: the chain of tips derived by appending each
block hash of `hs` in order. -/
def appendChain (t : Tip) (hs : List Hash) : Tip :=
  hs.foldl Tip.append t

/-- A concrete all-zero 32-byte digest, used to instantiate theorems. -/
def sampleHash : Hash :=
  ⟨List.replicate 32 0⟩

/-- A tip sitting at the largest representable `u64` height. -/
def maxTip : Tip :=
  { height := 2 ^ 64 - 1, last_block_h := sampleHash,
    prev_block_h := sampleHash, lineage := Lineage.new }

/-- A lineage of `2 ^ 32` elements, whose length the `as u32` cast in
`Lineage::write` truncates to zero. -/
def oversizedLineage : Lineage :=
  ⟨List.replicate (2 ^ 32) 0⟩

/-! ### Helper lemmas on the serializer primitives -/

lemma u32ToBytes_length (n : Nat) : (u32ToBytes n).length = 4 := rfl

lemma u64ToBytes_length (n : Nat) : (u64ToBytes n).length = 8 := rfl

lemma bytesToNat_u32ToBytes (n : Nat) (h : n < 2 ^ 32) :
    bytesToNat (u32ToBytes n) = n := by
  simp only [u32ToBytes, bytesToNat, List.foldl]
  norm_num
  omega

lemma bytesToNat_u64ToBytes (n : Nat) (h : n < 2 ^ 64) :
    bytesToNat (u64ToBytes n) = n := by
  simp only [u64ToBytes, bytesToNat, List.foldl]
  norm_num
  omega

lemma u32ToBytes_mod (n : Nat) : u32ToBytes (n % 2 ^ 32) = u32ToBytes n := by
  simp only [u32ToBytes]
  norm_num
  omega

lemma readFixed_append (n : Nat) (l rest : List Nat) (h : l.length = n) :
    readFixed n (l ++ rest) = .ok (l, rest) := by
  simp only [readFixed, List.length_append]
  rw [if_pos (by omega), List.take_left' h, List.drop_left' h]

lemma readFixed_short (n : Nat) (s : List Nat) (h : s.length < n) :
    readFixed n s = .error .decodeError := by
  simp only [readFixed]
  rw [if_neg (by omega)]

lemma read_u32_append (c : Nat) (rest : List Nat) (h : c < 2 ^ 32) :
    read_u32 (u32ToBytes c ++ rest) = .ok (c, rest) := by
  simp only [read_u32, readFixed_append 4 _ rest (u32ToBytes_length c),
    bytesToNat_u32ToBytes c h]

lemma read_u64_append (c : Nat) (rest : List Nat) (h : c < 2 ^ 64) :
    read_u64 (u64ToBytes c ++ rest) = .ok (c, rest) := by
  simp only [read_u64, readFixed_append 8 _ rest (u64ToBytes_length c),
    bytesToNat_u64ToBytes c h]

lemma read_u32_of_le (s : List Nat) (h : 4 ≤ s.length) :
    read_u32 s = .ok (bytesToNat (s.take 4), s.drop 4) := by
  simp only [read_u32, readFixed]
  rw [if_pos h]

lemma Hash.read_append (hb : Hash) (rest : List Nat) (h : hb.bytes.length = hashSize) :
    Hash.read (hb.bytes ++ rest) = .ok (hb, rest) := by
  simp only [Hash.read, readFixed_append hashSize _ rest h]

lemma readNU32_append (l : List Nat) (rest : List Nat) (h : ∀ x ∈ l, x < 2 ^ 32) :
    readNU32 l.length ((l.map u32ToBytes).flatten ++ rest) = .ok (l, rest) := by
  induction l with
  | nil => simp [readNU32]
  | cons a tl ih =>
    have ha : a < 2 ^ 32 := h a (by simp)
    have htl : ∀ x ∈ tl, x < 2 ^ 32 := fun x hx => h x (by simp [hx])
    simp only [List.length_cons, List.map_cons, List.flatten_cons, List.append_assoc, readNU32,
      read_u32_append a _ ha, ih htl]

lemma readNU32_short (n : Nat) (s : List Nat) (h : s.length < 4 * n) :
    readNU32 n s = .error .decodeError := by
  induction n generalizing s with
  | zero => omega
  | succ m ih =>
    by_cases h4 : s.length < 4
    · simp only [readNU32, read_u32, readFixed_short 4 s h4]
    · push_neg at h4
      simp only [readNU32, read_u32_of_le s h4, ih (s.drop 4) (by simp; omega)]

lemma lineage_flatten_length (l : List Nat) :
    (l.map u32ToBytes).flatten.length = 4 * l.length := by
  induction l with
  | nil => simp
  | cons a tl ih => simp [ih, u32ToBytes_length]; ring

lemma lineage_write_read (l : Lineage) (rest : List Nat)
    (hwf : l.wf) (hlen : l.branches.length < 2 ^ 32) :
    Lineage.read (Lineage.write l ++ rest) = .ok (l, rest) := by
  simp only [Lineage.write, Nat.mod_eq_of_lt hlen, List.append_assoc, Lineage.read,
    read_u32_append _ _ hlen, readNU32_append l.branches rest hwf]

lemma tip_write_read (t : Tip) (rest : List Nat)
    (hwf : t.wf) (hlen : t.lineage.branches.length < 2 ^ 32) :
    Tip.read (Tip.write t ++ rest) = .ok (t, rest) := by
  obtain ⟨hh, hl, hp, hw⟩ := hwf
  simp only [Tip.write, Hash.write, List.append_assoc, Tip.read,
    read_u64_append _ _ hh, Hash.read_append _ _ hl.1, Hash.read_append _ _ hp.1,
    lineage_write_read t.lineage rest hw hlen]

lemma appendChain_height (hs : List Hash) (t : Tip) (h : t.height < 2 ^ 64) :
    (appendChain t hs).height = (t.height + hs.length) % 2 ^ 64 := by
  induction hs generalizing t with
  | nil =>
    simp only [appendChain, List.foldl_nil, List.length_nil, Nat.add_zero]
    omega
  | cons a tl ih =>
    simp only [appendChain, List.foldl_cons] at ih ⊢
    rw [ih (t.append a) (Nat.mod_lt _ (by norm_num))]
    simp only [Tip.append, List.length_cons, Nat.mod_add_mod]
    congr 1
    omega

lemma appendChain_lineage (hs : List Hash) (t : Tip) :
    (appendChain t hs).lineage = t.lineage := by
  induction hs generalizing t with
  | nil => rfl
  | cons a tl ih => simpa [appendChain, Tip.append] using ih (t.append a)

lemma lineage_write_read_wrap (l : Lineage) (h : l.branches.length % 2 ^ 32 = 0) :
    Lineage.read (Lineage.write l) =
      .ok (Lineage.mk [], (l.branches.map u32ToBytes).flatten) := by
  simp only [Lineage.write, h, Lineage.read, read_u32_append 0 _ (by norm_num), readNU32]

/-! ### Claim theorems -/

/-- C1 (counterexample): the round-trip fails as universally stated.  A
lineage of `2 ^ 32` elements is encoded with a count of
`2 ^ 32 % 2 ^ 32 = 0` (`self.0.len() as u32`), so decoding its encoding
yields the empty lineage, not the original. -/
theorem lineage_roundtrip_cex :
    Lineage.read (Lineage.write oversizedLineage) =
      .ok (Lineage.mk [], (oversizedLineage.branches.map u32ToBytes).flatten) ∧
    Lineage.mk [] ≠ oversizedLineage := by
  have hl : oversizedLineage.branches.length = 2 ^ 32 := by
    simp only [oversizedLineage, List.length_replicate]
  constructor
  · exact lineage_write_read_wrap oversizedLineage (by rw [hl, Nat.mod_self])
  · intro h
    have hlen := congrArg (fun l => l.branches.length) h
    simp only at hlen
    rw [hl, List.length_nil] at hlen
    exact absurd hlen (by norm_num)

/-- C1 (amended): for every lineage of `u32` values with fewer than
`2 ^ 32` elements, decoding the encoding yields an equal lineage, and
for every well-formed tip whose lineage has fewer than `2 ^ 32`
elements, decoding the encoding yields an equal tip (equal height, head
identifier, parent identifier and lineage). -/
theorem serialization_roundtrip :
    (∀ l : Lineage, l.wf → l.branches.length < 2 ^ 32 →
      Lineage.read (Lineage.write l) = .ok (l, [])) ∧
    (∀ t : Tip, t.wf → t.lineage.branches.length < 2 ^ 32 →
      Tip.read (Tip.write t) = .ok (t, [])) := by
  constructor
  · intro l hwf hlen
    have h := lineage_write_read l [] hwf hlen
    simpa using h
  · intro t hwf hlen
    have h := tip_write_read t [] hwf hlen
    simpa using h

/-- C1 (witness): the round-trip at the genesis lineage and tip. -/
theorem serialization_roundtrip_witness :
    Lineage.read (Lineage.write Lineage.new) = .ok (Lineage.new, []) ∧
    Tip.read (Tip.write (Tip.new sampleHash)) = .ok (Tip.new sampleHash, []) :=
  ⟨serialization_roundtrip.1 Lineage.new (by decide) (by decide),
   serialization_roundtrip.2 (Tip.new sampleHash) (by decide) (by decide)⟩

/-- C2 (counterexample): at height `2 ^ 64 - 1` the unchecked `u64`
addition in `Tip::append` wraps, so the derived height is `0`, not
`height + 1`. -/
theorem tip_append_overflow_cex :
    (maxTip.append sampleHash).height ≠ maxTip.height + 1 := by
  simp only [Tip.append, maxTip]
  norm_num

/-- C2 (amended): for every tip `t` whose height is strictly below
`2 ^ 64 - 1` and every block identifier `b`, `t.append b` is a new tip
whose height is `t.height + 1`, whose head identifier is `b`, whose
parent identifier is `t`'s head identifier, and whose lineage is `t`'s
lineage; `t` itself is unchanged (values are immutable in the pure
embedding). -/
theorem tip_append_spec (t : Tip) (b : Hash) (h : t.height < 2 ^ 64 - 1) :
    (t.append b).height = t.height + 1 ∧
    (t.append b).last_block_h = b ∧
    (t.append b).prev_block_h = t.last_block_h ∧
    (t.append b).lineage = t.lineage := by
  refine ⟨?_, rfl, rfl, rfl⟩
  simp only [Tip.append]
  omega

/-- C2 (witness): appending one block to the genesis tip. -/
theorem tip_append_spec_witness :
    ((Tip.new sampleHash).append sampleHash).height = (Tip.new sampleHash).height + 1 ∧
    ((Tip.new sampleHash).append sampleHash).last_block_h = sampleHash ∧
    ((Tip.new sampleHash).append sampleHash).prev_block_h =
      (Tip.new sampleHash).last_block_h ∧
    ((Tip.new sampleHash).append sampleHash).lineage = (Tip.new sampleHash).lineage :=
  tip_append_spec (Tip.new sampleHash) sampleHash (by decide)

/-- C3: for every block identifier `g`, `Tip::new g` has height `0`,
head identifier `g`, parent identifier `g`, and lineage `[0]`. -/
theorem tip_new_spec (g : Hash) :
    (Tip.new g).height = 0 ∧ (Tip.new g).last_block_h = g ∧
    (Tip.new g).prev_block_h = g ∧ (Tip.new g).lineage.branches = [0] :=
  ⟨rfl, rfl, rfl, rfl⟩

/-- C4: for every stream too short to supply the declared element count
(the first four bytes, read most-significant-first), `Lineage::read`
fails with a decode error. -/
theorem lineage_read_truncated (s : List Nat)
    (h : s.length < 4 + 4 * bytesToNat (s.take 4)) :
    Lineage.read s = .error .decodeError := by
  by_cases h4 : s.length < 4
  · simp only [Lineage.read, read_u32, readFixed_short 4 s h4]
  · push_neg at h4
    simp only [Lineage.read, read_u32_of_le s h4,
      readNU32_short (bytesToNat (s.take 4)) (s.drop 4)
        (by simp only [List.length_drop]; omega)]

/-- C4 (witness): a stream declaring one element but holding none. -/
theorem lineage_read_truncated_witness :
    Lineage.read [0, 0, 0, 1] = .error .decodeError :=
  lineage_read_truncated [0, 0, 0, 1] (by decide)

/-- C5 (counterexample): after `2 ^ 64` successive appends the height
has wrapped to `0`, not `2 ^ 64`. -/
theorem height_exact_cex :
    (appendChain (Tip.new sampleHash) (List.replicate (2 ^ 64) sampleHash)).height ≠
      (List.replicate (2 ^ 64) sampleHash : List Hash).length := by
  have h0 : (Tip.new sampleHash).height = 0 := rfl
  rw [appendChain_height _ _ (by rw [h0]; norm_num), h0, List.length_replicate]
  norm_num

/-- C5 (amended): for every block identifier `g` and every `k` with
`0 ≤ k < 2 ^ 64`, the `k`-th tip derived from `Tip::new g` by successive
appends has height exactly `k`. -/
theorem height_monotonic (g : Hash) (hs : List Hash) (h : hs.length < 2 ^ 64) :
    (appendChain (Tip.new g) hs).height = hs.length := by
  have h0 : (Tip.new g).height = 0 := rfl
  rw [appendChain_height hs (Tip.new g) (by rw [h0]; norm_num), h0, Nat.zero_add,
    Nat.mod_eq_of_lt h]

/-- C5 (witness): two appends from genesis reach height two. -/
theorem height_monotonic_witness :
    (appendChain (Tip.new sampleHash) [sampleHash, sampleHash]).height =
      ([sampleHash, sampleHash] : List Hash).length :=
  height_monotonic sampleHash [sampleHash, sampleHash] (by decide)

/-- C6: the tip encoding is, in order, the height as a fixed-width
8-byte (64-bit) unsigned integer, the 32-byte head identifier, the
32-byte parent identifier, then the lineage encoding: a 4-byte (32-bit)
element count followed by each element as 4 bytes in order; the height
and (below `2 ^ 32`) the count are recoverable from their fields. -/
theorem tip_write_layout (t : Tip) (h : t.wf) :
    Tip.write t =
      u64ToBytes t.height ++ t.last_block_h.bytes ++ t.prev_block_h.bytes ++
        (u32ToBytes (t.lineage.branches.length % 2 ^ 32) ++
          (t.lineage.branches.map u32ToBytes).flatten) ∧
    (u64ToBytes t.height).length = 8 ∧
    t.last_block_h.bytes.length = 32 ∧
    t.prev_block_h.bytes.length = 32 ∧
    (u32ToBytes (t.lineage.branches.length % 2 ^ 32)).length = 4 ∧
    (∀ b ∈ t.lineage.branches.map u32ToBytes, b.length = 4) ∧
    bytesToNat (u64ToBytes t.height) = t.height ∧
    (t.lineage.branches.length < 2 ^ 32 →
      bytesToNat (u32ToBytes (t.lineage.branches.length % 2 ^ 32)) =
        t.lineage.branches.length) := by
  obtain ⟨hh, hl, hp, _⟩ := h
  refine ⟨rfl, u64ToBytes_length _, hl.1, hp.1, u32ToBytes_length _, ?_, ?_, ?_⟩
  · intro b hb
    obtain ⟨x, _, rfl⟩ := List.mem_map.mp hb
    exact u32ToBytes_length x
  · exact bytesToNat_u64ToBytes _ hh
  · intro hlen
    rw [Nat.mod_eq_of_lt hlen]
    exact bytesToNat_u32ToBytes _ hlen

/-- C6 (witness): the layout at the genesis tip. -/
theorem tip_write_layout_witness :
    Tip.write (Tip.new sampleHash) =
      u64ToBytes (Tip.new sampleHash).height ++
        (Tip.new sampleHash).last_block_h.bytes ++
        (Tip.new sampleHash).prev_block_h.bytes ++
        (u32ToBytes ((Tip.new sampleHash).lineage.branches.length % 2 ^ 32) ++
          ((Tip.new sampleHash).lineage.branches.map u32ToBytes).flatten) ∧
    bytesToNat (u64ToBytes (Tip.new sampleHash).height) = (Tip.new sampleHash).height :=
  ⟨(tip_write_layout (Tip.new sampleHash) (by decide)).1,
   (tip_write_layout (Tip.new sampleHash) (by decide)).2.2.2.2.2.2.1⟩

/-- C7: the no-op adapter's `block_accepted` leaves any downstream state
unchanged and returns unit: it has no observable effect. -/
theorem noop_adapter_frame (σ : Type) (w : σ) (a : NoopAdapter) (b : Block) :
    a.block_accepted w b = (w, ()) :=
  rfl

/-- C8: every lineage produced by `Lineage::new` or carried through
`Tip::new` and `Tip::append` is non-empty, so `last_branch` is defined
(`some 0`); `Lineage::read` does not enforce non-emptiness: a stream
declaring a zero count decodes to the empty lineage, on which
`last_branch` panics (modelled as `none`). -/
theorem last_branch_totality :
    Lineage.new.last_branch = some 0 ∧
    (∀ (g : Hash) (hs : List Hash),
      (appendChain (Tip.new g) hs).lineage.branches ≠ [] ∧
      (appendChain (Tip.new g) hs).lineage.last_branch = some 0) ∧
    (∀ (t : Tip) (b : Hash), (t.append b).lineage = t.lineage) ∧
    Lineage.read (u32ToBytes 0) = .ok (Lineage.mk [], []) ∧
    (Lineage.mk []).last_branch = none := by
  refine ⟨rfl, ?_, fun t b => rfl, ?_, rfl⟩
  · intro g hs
    rw [appendChain_lineage]
    exact ⟨by simp [Tip.new, Lineage.new], rfl⟩
  · have happ : u32ToBytes 0 = u32ToBytes 0 ++ [] := (List.append_nil _).symm
    rw [happ]
    simp only [Lineage.read, read_u32_append 0 [] (by norm_num), readNU32]

/-- C9: `Lineage::write` records the element count as `len as u32`, so
the recorded count is the length modulo `2 ^ 32`; whenever the length is
at most `2 ^ 32 - 1` the recorded count equals the true length and the
encode/decode round-trip holds. -/
theorem lineage_count_cast (l : Lineage) (hwf : l.wf) :
    bytesToNat ((Lineage.write l).take 4) = l.branches.length % 2 ^ 32 ∧
    (l.branches.length < 2 ^ 32 →
      bytesToNat ((Lineage.write l).take 4) = l.branches.length ∧
      Lineage.read (Lineage.write l) = .ok (l, [])) := by
  have htake : (Lineage.write l).take 4 = u32ToBytes (l.branches.length % 2 ^ 32) := by
    simp only [Lineage.write]
    exact List.take_left' (u32ToBytes_length _)
  constructor
  · rw [htake]
    exact bytesToNat_u32ToBytes _ (Nat.mod_lt _ (by norm_num))
  · intro hlen
    refine ⟨?_, ?_⟩
    · rw [htake, Nat.mod_eq_of_lt hlen]
      exact bytesToNat_u32ToBytes _ hlen
    · have h := lineage_write_read l [] hwf hlen
      simpa using h

/-- C9 (witness): the recorded count of the genesis lineage. -/
theorem lineage_count_cast_witness :
    bytesToNat ((Lineage.write Lineage.new).take 4) =
      Lineage.new.branches.length % 2 ^ 32 :=
  (lineage_count_cast Lineage.new (by decide)).1

/-- C10: `Tip::append` computes the new height by unchecked `u64`
addition: the derived height is `(height + 1) % 2 ^ 64`, which equals
`height + 1` exactly for heights strictly below `2 ^ 64 - 1` and wraps
to `0` at `2 ^ 64 - 1`. -/
theorem tip_append_height_mod (t : Tip) (b : Hash) :
    (t.append b).height = (t.height + 1) % 2 ^ 64 ∧
    (t.height < 2 ^ 64 - 1 → (t.append b).height = t.height + 1) ∧
    (t.height = 2 ^ 64 - 1 → (t.append b).height = 0) := by
  refine ⟨rfl, ?_, ?_⟩
  · intro h
    simp only [Tip.append]
    omega
  · intro h
    simp only [Tip.append, h]
    norm_num

/-- C10 (witness): the wrap at the maximal `u64` height. -/
theorem tip_append_height_mod_witness :
    (maxTip.append sampleHash).height = 0 :=
  (tip_append_height_mod maxTip sampleHash).2.2 rfl

end GrinChain
